import Mathlib

/-!
Verification of the assemblyish compiler pipeline (parser.py, instruction.py,
compiler.py): a shallow embedding of the tokenizer, line grouper, instruction
table, resolver and binary encoder, with theorems checking the behavioural
claims of the specification against the code.

Conventions of the embedding:
* Python strings are `String`/`List Char`; Python ints are `Nat` (all integers
  in this program are non-negative digit runs or table ids).
* Fallible code returns `Except Err`; Python exceptions that are not
  `LexingError`/`UnexpectToken`/`CompilationError` (e.g. `IndexError` from
  `line[1]` on a one-token line, `KeyError` from a missing dict key) are
  modelled by dedicated `Err` constructors.
* Recursions that Python performs by loops or regex scanning are structural
  (fuelled where the source can fail to advance, e.g. a tab character makes
  `process_whitespace` recurse without progress; fuel exhaustion is the
  `Err.crash` that models that non-termination / interpreter crash).
* The error classes live in `errors.py`, which is not part of the given
  sources; the `Err`/`LexKind`/`CompKind` types are modelled from the spec's
  error taxonomy (each error carries the line and character index that the
  call sites in `parser.py`/`compiler.py` pass).
-/

namespace Assemblyish

/-- Token kinds, the `type` strings of `parser.py`
(`START`, `EOF`, `IDT`, `NUM`, `COM`, `STR`, `VAR`, `GOTO`, `NEWLINE`). -/
inductive TokType
  | START | EOF | IDT | NUM | COM | STR | VAR | GOTO | NEWLINE
deriving DecidableEq, Repr

/-- Token values: Python `None`, a string, or an int (the compiler builds
synthetic `Token("NUM", 0, 0, id)` tokens whose value is an int). -/
inductive TVal
  | none
  | str (s : String)
  | num (n : Nat)
deriving DecidableEq, Repr

/-- `parser.Token`: type, line, overall character index, value. -/
structure Token where
  type : TokType
  line : Nat
  index : Nat
  value : TVal
deriving DecidableEq, Repr

/-- Kinds of `LexingError` (empty input / missing trailing newline). -/
inductive LexKind
  | noInput
  | noNewlineEnd
deriving DecidableEq, Repr

/-- Kinds of `CompilationError`, one per distinct message raised in
`compiler.py`. -/
inductive CompKind
  | unknownInstruction
  | argumentMismatch
  | undeclaredVariable
  | undeclaredGoto
  | varDeclMismatch
  | gotoDeclMismatch
  | invalidLineStart
  | characterOutOfRange
  | stringTooLong
  | integerTooLarge
deriving DecidableEq, Repr

/-- Errors of the pipeline. `lexing`, `unexpectedToken` and `compilation`
carry the line and character index passed at the raise sites; `indexError`,
`keyError` and `crash` model Python runtime errors (out-of-range list or
dict access, unterminated scan / non-advancing recursion). -/
inductive Err
  | lexing (line index : Nat) (kind : LexKind)
  | unexpectedToken (line index : Nat) (c : Char)
  | compilation (line index : Nat) (kind : CompKind)
  | indexError
  | keyError
  | crash
deriving DecidableEq, Repr

/-- Python regex `\w` on the ASCII source alphabet. -/
def isWordChar (c : Char) : Bool := c.isAlphanum || c = '_'

/-- Scanner state of `parser.Parser`: the code, cursor `index`, and the
line counter (which starts at 0 in `__init__`). -/
structure PState where
  code : List Char
  index : Nat
  line : Nat
deriving Repr

/-- Scan of the body of a quoted string, mirroring the regex
`"(?:\\.|[^"\\])*"` applied at the opening quote: given the characters after
the opening quote, return the consumed characters up to and including the
closing quote, or `none` when the regex cannot match at this position. -/
def strScan : List Char → Option (List Char)
  | [] => Option.none
  | '"' :: _ => some ['"']
  | '\\' :: [] => Option.none
  | '\\' :: d :: rest => (strScan rest).map (fun l => '\\' :: d :: l)
  | c :: rest => (strScan rest).map (fun l => c :: l)

/-- One step of `Parser.next`, fuelled because `process_whitespace` re-enters
`next` (and does not advance on non-space whitespace such as a tab). -/
def pnext : Nat → PState → Except Err (Token × PState)
  | 0, _ => .error .crash
  | fuel + 1, s =>
    if s.index = s.code.length - 1 then
      .ok (⟨.EOF, s.line, s.index, .none⟩, s)
    else
      match s.code[s.index]? with
      | Option.none => .error .indexError
      | some c =>
        if c.isAlpha then
          let run := (s.code.drop s.index).takeWhile isWordChar
          let ni := s.index + run.length
          .ok (⟨.IDT, s.line, ni, .str (String.mk (run.map Char.toUpper))⟩,
               { s with index := ni })
        else if c.isDigit then
          let run := (s.code.drop s.index).takeWhile Char.isDigit
          let ni := s.index + run.length
          .ok (⟨.NUM, s.line, ni, .str (String.mk run)⟩, { s with index := ni })
        else if c = ';' then
          let run := (s.code.drop s.index).takeWhile (fun d => d ≠ '\n')
          let ni := s.index + run.length
          .ok (⟨.COM, s.line, ni, .str (String.mk run)⟩, { s with index := ni })
        else if c = '"' then
          match strScan (s.code.drop (s.index + 1)) with
          | Option.none => .error .crash
          | some body =>
            let ni := s.index + 1 + body.length
            .ok (⟨.STR, s.line, ni, .str (String.mk ('"' :: body))⟩,
                 { s with index := ni })
        else if c = '.' then
          .ok (⟨.VAR, s.line, s.index + 1, .none⟩, { s with index := s.index + 1 })
        else if c = ':' then
          .ok (⟨.GOTO, s.line, s.index + 1, .none⟩, { s with index := s.index + 1 })
        else if c.isWhitespace then
          let sp := (s.code.drop s.index).takeWhile (fun d => d = ' ')
          let i1 := s.index + sp.length
          let nl : Nat :=
            if s.code[i1]? = some '\n' then 1
            else if s.code[i1]? = some '\r' ∧ s.code[(i1 + 1)]? = some '\n' then 2
            else 0
          if nl = 0 then pnext fuel { s with index := i1 }
          else
            .ok (⟨.NEWLINE, s.line + 1, i1 + nl, .none⟩,
                 { s with index := i1 + nl, line := s.line + 1 })
        else .error (.unexpectedToken s.line s.index c)

/-- The `while symbols[-1].type != "EOF"` loop of `Parser.parse`, producing
the tokens after the initial `START` token, the final `EOF` included. -/
def parseLoop : Nat → PState → Except Err (List Token)
  | 0, _ => .error .crash
  | f + 1, s =>
    match pnext (s.code.length + 1) s with
    | .error e => .error e
    | .ok (t, s') =>
      if t.type = .EOF then .ok [t]
      else
        match parseLoop f s' with
        | .error e => .error e
        | .ok rest => .ok (t :: rest)

/-- The default (`include_extra = False`) filter of `Parser.parse`. -/
def keepToken (t : Token) : Bool :=
  !(t.type = .START || t.type = .EOF || t.type = .COM)

/-- The quote-stripping pass of `Parser.parse` (`symbol.value[1:-1]` on
`STR` tokens). -/
def stripStr (t : Token) : Token :=
  if t.type = .STR then
    match t.value with
    | .str s => { t with value := .str (String.mk ((s.data.drop 1).dropLast)) }
    | _ => t
  else t

/-- `Parser.__init__` precondition checks followed by `Parser.parse()`:
empty input and input not ending in a newline raise `LexingError` before any
scanning; otherwise the token list, filtered and quote-stripped. -/
def tokenize (codeStr : String) : Except Err (List Token) :=
  let code := codeStr.data
  if code.length = 0 then .error (.lexing 0 0 .noInput)
  else if code.getLast? ≠ some '\n' then .error (.lexing 0 0 .noNewlineEnd)
  else
    match parseLoop (code.length + 2) ⟨code, 0, 0⟩ with
    | .error e => .error e
    | .ok toks =>
      .ok (((⟨.START, 0, 0, .none⟩ :: toks).filter keepToken).map stripStr)

/-- `instruction.Argument`: allowed token kinds and the required flag. -/
structure Argument where
  types : List TokType
  required : Bool
deriving DecidableEq, Repr

/-- `Argument.match`: the token's kind is among the allowed kinds. -/
def Argument.matchTok (a : Argument) (t : Token) : Bool := a.types.contains t.type

/-- `instruction.Instruction`: opcode byte and positional argument specs. -/
structure Instruction where
  byte : Nat
  args : List Argument
deriving DecidableEq, Repr

/-- The spec-walking loop of `Instruction.match`: when the statement runs out
of tokens at a spec, accept exactly when that spec is optional; otherwise
every present token must match its spec. -/
def matchArgs : List Argument → List Token → Bool
  | [], _ => true
  | a :: _, [] => !a.required
  | a :: as, t :: ts => a.matchTok t && matchArgs as ts

/-- `Instruction.match`: reject when there are more operand tokens than specs,
else walk the specs. -/
def Instruction.matchLine (ins : Instruction) (line : List Token) : Bool :=
  if line.length > ins.args.length then false else matchArgs ins.args line

/-- The `instructions` registry of `instruction.py` as an association list
(mnemonic → descriptor), in source order. -/
def instructionList : List (String × Instruction) :=
  [("ADD", ⟨1, [⟨[.NUM, .IDT], true⟩, ⟨[.NUM, .IDT], false⟩]⟩),
   ("SUB", ⟨2, [⟨[.NUM, .IDT], true⟩, ⟨[.NUM, .IDT], false⟩]⟩),
   ("MUL", ⟨3, [⟨[.NUM, .IDT], true⟩, ⟨[.NUM, .IDT], false⟩]⟩),
   ("DIV", ⟨4, [⟨[.NUM, .IDT], true⟩, ⟨[.NUM, .IDT], false⟩]⟩),
   ("POW", ⟨5, [⟨[.NUM, .IDT], true⟩, ⟨[.NUM, .IDT], false⟩]⟩),
   ("MOD", ⟨6, [⟨[.NUM, .IDT], true⟩, ⟨[.NUM, .IDT], false⟩]⟩),
   ("RAN", ⟨7, [⟨[.NUM, .IDT], true⟩, ⟨[.NUM, .IDT], false⟩]⟩),
   ("STO", ⟨65, [⟨[.IDT], true⟩, ⟨[.NUM, .STR, .IDT], false⟩]⟩),
   ("LOD", ⟨66, [⟨[.IDT], true⟩, ⟨[.NUM, .STR, .IDT], false⟩]⟩),
   ("OUT", ⟨129, [⟨[.NUM, .IDT], false⟩]⟩),
   ("OUTS", ⟨130, [⟨[.STR, .IDT], false⟩]⟩)]

/-- First-match association-list lookup (Python `dict.get`). -/
def lookupStr : List (String × Instruction) → String → Option Instruction
  | [], _ => Option.none
  | (k, v) :: rest, key => if key = k then some v else lookupStr rest key

/-- `instructions.get(name)`. -/
def instructions (s : String) : Option Instruction := lookupStr instructionList s

/-- The `GOTO` descriptor of `instruction.py` (opcode `0b11111001`). -/
def GOTO : Instruction := ⟨249, [⟨[.IDT], true⟩]⟩

/-- The `VAR` descriptor of `instruction.py` (opcode `0b11111010`). -/
def VAR : Instruction := ⟨250, [⟨[.IDT], true⟩]⟩

/-- Symbol table: Python dict as an association list whose newest binding
shadows older ones (first match wins on lookup). -/
abbrev Tbl := List (TVal × Nat)

/-- Dict lookup: newest binding first. -/
def lookupTbl : Tbl → TVal → Option Nat
  | [], _ => Option.none
  | (k, v) :: rest, key => if key = k then some v else lookupTbl rest key

/-- Dict update `tbl[k] = v`: the new binding shadows any older one. -/
def insertTbl (tbl : Tbl) (k : TVal) (v : Nat) : Tbl := (k, v) :: tbl

/-- `compiler.Compilable`: opcode byte, source line/index of the statement's
first token, and the raw operand tokens. The Python object also keeps
references to the live symbol tables; since every record of one compilation
references the same two tables and is encoded only after the resolver pass,
the embedding passes the final tables to the encoder explicitly. -/
structure Compilable where
  byte : Nat
  line : Nat
  index : Nat
  args : List Token
deriving DecidableEq, Repr

/-- Little-endian base-16 digits, fuelled (`hexRevF n n` is exact for fuel
at least the value, see `hexRevF_eq_digits`). -/
def hexRevF : Nat → Nat → List Nat
  | 0, _ => []
  | f + 1, n => if n = 0 then [] else n % 16 :: hexRevF f (n / 16)

/-- The digit list of `hex(num)[2:]`, big-endian (`[0]` for `0`, matching
`hex(0) = "0x0"`). -/
def hexDigits (n : Nat) : List Nat :=
  if n = 0 then [0] else (hexRevF n n).reverse

/-- `Compilable.make_bytes`: `hex(num)[2:].zfill(length*2)` read off in
consecutive 2-hex-digit pairs, one byte per pair; when the hex string is
longer than `2*length` only the first `length` pairs are read (and a trailing
odd digit is dropped), exactly as the Python slicing does. -/
def make_bytes (num len : Nat) : List Nat :=
  let ds := hexDigits num
  let bs := List.replicate (2 * len - ds.length) 0 ++ ds
  (List.range len).map (fun i => 16 * bs.getD (2 * i) 0 + bs.getD (2 * i + 1) 0)

/-- `int()` on a run of decimal digit characters. -/
def parseDigits (s : String) : Nat :=
  s.data.foldl (fun acc c => 10 * acc + (c.toNat - 48)) 0

/-- Python `int(value)` on a token value: ints pass through, digit strings
parse, anything else is a runtime error. -/
def tvalInt : TVal → Except Err Nat
  | .num n => .ok n
  | .str s =>
    if s.data ≠ [] ∧ s.data.all Char.isDigit then .ok (parseDigits s)
    else .error .crash
  | .none => .error .crash

/-- `Compilable.compile_string`: string tag `0b11111101`, every character must
have code point at most 255 (first offender raises), the character count must
not strictly exceed `2^32`, then the count as `make_bytes(length, 4)` and one
byte per character. -/
def compile_string (ln idx : Nat) (s : String) : Except Err (List Nat) :=
  match s.data.find? (fun c => 255 < c.toNat) with
  | some _ => .error (.compilation ln idx .characterOutOfRange)
  | Option.none =>
    if 2 ^ 32 < s.data.length then .error (.compilation ln idx .stringTooLong)
    else .ok (253 :: (make_bytes s.data.length 4 ++ s.data.map Char.toNat))

/-- `Compilable.compile_int`: number tag `0b11111110`, error when the value
strictly exceeds `2^64`, then `make_bytes(integer, 8)`. -/
def compile_int (ln idx : Nat) (n : Nat) : Except Err (List Nat) :=
  if 2 ^ 64 < n then .error (.compilation ln idx .integerTooLarge)
  else .ok (254 :: make_bytes n 8)

/-- One operand of `Compilable.compile`: returns the emitted bytes and the
updated `is_goto` flag (cleared after the first identifier of a goto record,
which is resolved through the label table; all other identifiers resolve
through the variable table, bare 8-byte big-endian, no tag). -/
def compileArg (vars gotos : Tbl) (ln idx : Nat) (isGoto : Bool) (a : Token) :
    Except Err (List Nat × Bool) :=
  match a.type with
  | .STR =>
    match a.value with
    | .str s => (compile_string ln idx s).map (fun b => (b, isGoto))
    | _ => .error .crash
  | .IDT =>
    if isGoto then
      match lookupTbl gotos a.value with
      | some v => .ok (make_bytes v 8, false)
      | Option.none => .error .keyError
    else
      match lookupTbl vars a.value with
      | some v => .ok (make_bytes v 8, isGoto)
      | Option.none => .error .keyError
  | .NUM =>
    match tvalInt a.value with
    | .ok n => (compile_int ln idx n).map (fun b => (b, isGoto))
    | .error e => .error e
  | _ => .ok ([], isGoto)

/-- The operand loop of `Compilable.compile`. -/
def compileArgsLoop (vars gotos : Tbl) (ln idx : Nat) :
    Bool → List Token → Except Err (List Nat)
  | _, [] => .ok []
  | g, a :: rest =>
    match compileArg vars gotos ln idx g a with
    | .error e => .error e
    | .ok (b, g') =>
      match compileArgsLoop vars gotos ln idx g' rest with
      | .error e => .error e
      | .ok bs => .ok (b ++ bs)

/-- `Compilable.compile`: the opcode byte followed by the operand encodings;
`is_goto` starts true exactly for opcode `0b11111001`. -/
def Compilable.compile (c : Compilable) (vars gotos : Tbl) :
    Except Err (List Nat) :=
  (compileArgsLoop vars gotos c.line c.index (c.byte = 249) c.args).map
    (fun bs => c.byte :: bs)

/-- Resolver state of `compiler.Compiler`: the two symbol tables, the shared
id counter `var_goto_id`, and the resolved records in source order. -/
structure CState where
  vars : Tbl
  gotos : Tbl
  counter : Nat
  instrs : List Compilable
deriving DecidableEq, Repr

/-- `Compiler.__init__`: empty tables, counter 1, no records. -/
def initState : CState := ⟨[], [], 1, []⟩

/-- Mnemonic lookup `instructions.get(line[0].value)` (a non-string key is
never in the registry). -/
def lookupMnemonic (v : TVal) : Option Instruction :=
  match v with
  | .str n => instructions n
  | _ => Option.none

/-- One iteration of the statement loop of `Compiler.compile`, branching on
the leading token's kind. All error raise sites use `line[1]`'s coordinates
where the source does; on a one-token line that access is a Python
`IndexError`, modelled by `Err.indexError`. -/
def resolveLine (s : CState) (line : List Token) : Except Err CState :=
  match line with
  | [] => .error .crash
  | t0 :: rest =>
    if t0.type = .IDT then
      match lookupMnemonic t0.value with
      | Option.none => .error (.compilation t0.line t0.index .unknownInstruction)
      | some ins =>
        if ins.matchLine rest then
          match rest.find? (fun t =>
              t.type = .IDT &&
                (if t0.value = .str "GOTO" then (lookupTbl s.gotos t.value).isNone
                 else (lookupTbl s.vars t.value).isNone)) with
          | some _ =>
            match rest.head? with
            | some t1 =>
              .error (.compilation t1.line t1.index
                (if t0.value = .str "GOTO" then .undeclaredGoto
                 else .undeclaredVariable))
            | Option.none => .error .indexError
          | Option.none =>
            .ok { s with instrs := s.instrs ++ [⟨ins.byte, t0.line, t0.index, rest⟩] }
        else
          match rest.head? with
          | some t1 => .error (.compilation t1.line t1.index .argumentMismatch)
          | Option.none => .error .indexError
    else if t0.type = .VAR then
      if VAR.matchLine rest then
        match rest.head? with
        | some t1 =>
          .ok { vars := insertTbl s.vars t1.value s.counter,
                gotos := s.gotos,
                counter := s.counter + 1,
                instrs := s.instrs ++
                  [⟨VAR.byte, t0.line, t0.index, [⟨.NUM, 0, 0, .num s.counter⟩]⟩] }
        | Option.none => .error .indexError
      else
        match rest.head? with
        | some t1 => .error (.compilation t1.line t1.index .varDeclMismatch)
        | Option.none => .error .indexError
    else if t0.type = .GOTO then
      if GOTO.matchLine rest then
        match rest.head? with
        | some t1 =>
          .ok { vars := s.vars,
                gotos := insertTbl s.gotos t1.value s.counter,
                counter := s.counter + 1,
                instrs := s.instrs ++
                  [⟨GOTO.byte, t0.line, t0.index, [⟨.NUM, 0, 0, .num s.counter⟩]⟩] }
        | Option.none => .error .indexError
      else
        match rest.head? with
        | some t1 => .error (.compilation t1.line t1.index .gotoDeclMismatch)
        | Option.none => .error .indexError
    else .error (.compilation t0.line t0.index .invalidLineStart)

/-- The statement loop of `Compiler.compile` (first pass, resolution). -/
def resolveLines (s : CState) : List (List Token) → Except Err CState
  | [] => .ok s
  | l :: ls =>
    match resolveLine s l with
    | .error e => .error e
    | .ok s' => resolveLines s' ls

/-- `Compiler.getlines`: split the token list into statements at `NEWLINE`
tokens, dropping empty spans. -/
def getlinesAux : List Token → List Token → List (List Token)
  | line, [] => if line.isEmpty then [] else [line]
  | line, t :: ts =>
    if t.type = .NEWLINE then
      if line.isEmpty then getlinesAux [] ts else line :: getlinesAux [] ts
    else getlinesAux (line ++ [t]) ts

/-- `Compiler.getlines` entry point. -/
def getlines (toks : List Token) : List (List Token) := getlinesAux [] toks

/-- The encoding loop of `Compiler.compile` (second pass): every record is
encoded against the same final symbol tables; the first failure aborts. -/
def encodeAll (vars gotos : Tbl) : List Compilable → Except Err (List Nat)
  | [] => .ok []
  | c :: cs =>
    match c.compile vars gotos with
    | .error e => .error e
    | .ok b =>
      match encodeAll vars gotos cs with
      | .error e => .error e
      | .ok r => .ok (b ++ r)

/-- `Compiler.compile` on an already-tokenized program. -/
def compileTokens (toks : List Token) : Except Err (List Nat) :=
  match resolveLines initState (getlines toks) with
  | .error e => .error e
  | .ok s => encodeAll s.vars s.gotos s.instrs

/-- Tokenize then run only the resolution pass, exposing the final state. -/
def resolveSource (code : String) : Except Err CState :=
  match tokenize code with
  | .error e => .error e
  | .ok toks => resolveLines initState (getlines toks)

/-- The whole pipeline: `Parser(code).parse()` then
`Compiler(filename, tokens).compile()`. -/
def compileSource (code : String) : Except Err (List Nat) :=
  match tokenize code with
  | .error e => .error e
  | .ok toks => compileTokens toks

/-- The spec's wording of a `w`-byte big-endian unsigned integer: byte `i`
(from the most significant end) is `n / 256^(w-1-i) % 256`. -/
def specBE (n w : Nat) : List Nat :=
  (List.range w).map (fun i => n / 256 ^ (w - 1 - i) % 256)

/-- `true` exactly on `.ok` results. -/
def isOk {α : Type} : Except Err α → Bool
  | .ok _ => true
  | .error _ => false

/-- `true` exactly when the result is a `LexingError`. -/
def isLexErr {α : Type} : Except Err α → Bool
  | .error (.lexing _ _ _) => true
  | _ => false

/-- The id (with an is-label tag) carried by a synthetic declaration record:
declaration records are exactly those whose opcode byte is the label-declare
byte `249` or the variable-declare byte `250`. -/
def declEntry (c : Compilable) : Option (Bool × Nat) :=
  if c.byte = 249 ∨ c.byte = 250 then
    match c.args with
    | [⟨.NUM, _, _, .num n⟩] => some (c.byte == 249, n)
    | _ => Option.none
  else Option.none

/-- The declaration ids of a record list, tagged with is-label, in source
order. -/
def declTrace (recs : List Compilable) : List (Bool × Nat) :=
  recs.filterMap declEntry

/-- The declaration ids of a record list, in source order. -/
def declIds (recs : List Compilable) : List Nat :=
  (declTrace recs).map Prod.snd

/-- Boolean check that each token's `line` field equals the number of
`NEWLINE` tokens before it in the stream, counting a `NEWLINE` token itself
(the scanner increments the counter before emitting the `NEWLINE`). -/
def linesConsistent : Nat → List Token → Bool
  | _, [] => true
  | k, t :: ts =>
    if t.type = .NEWLINE then decide (t.line = k + 1) && linesConsistent (k + 1) ts
    else decide (t.line = k) && linesConsistent k ts


/-- C1: for the program `.x` then `STO x 42`, the resolver assigns `x`
(upper-cased to `X`) the id 1; the STO record encodes as opcode 65, the bare
8-byte big-endian id 1 with no tag, then the number tag 254 and the 8-byte
big-endian 42; and the full program bytes are the declaration record's bytes
followed by exactly that STO encoding. -/
theorem c1_sto_var_encoding :
    (match resolveSource ".x\nSTO x 42\n" with
     | .ok s => lookupTbl s.vars (.str "X")
     | .error _ => Option.none) = some 1 ∧
    (match resolveSource ".x\nSTO x 42\n" with
     | .ok s =>
       match s.instrs with
       | [_, c] =>
         match c.compile s.vars s.gotos with
         | .ok bs => some bs
         | .error _ => Option.none
       | _ => Option.none
     | .error _ => Option.none) =
      some ([65] ++ specBE 1 8 ++ [254] ++ specBE 42 8) ∧
    compileSource ".x\nSTO x 42\n" =
      .ok ([250, 254] ++ specBE 1 8 ++ [65] ++ specBE 1 8 ++ [254] ++ specBE 42 8) :=
  ⟨rfl, rfl, rfl⟩

/-- C2: `ADD 5 10` compiles to opcode 1, then number-tag 254 with the 8-byte
big-endian 5, then number-tag 254 with the 8-byte big-endian 10. -/
theorem c2_add_encoding :
    compileSource "ADD 5 10\n" =
      .ok ([1, 254] ++ specBE 5 8 ++ [254] ++ specBE 10 8) :=
  rfl

/-- C4 (code bug): the claim expects an undeclared label in a label-jump
statement to fail `UndeclaredSymbol`, but the mnemonic `GOTO` is missing from
the `instructions` registry, so any `GOTO` statement — the operand declared or
not — fails earlier with `UnknownInstruction`; the label-table check in
`Compiler.compile` is unreachable. -/
theorem c4_goto_unknown_instruction :
    compileSource "GOTO x\n" = .error (.compilation 0 4 .unknownInstruction) ∧
    compileSource ":y\nGOTO y\n" = .error (.compilation 1 7 .unknownInstruction) :=
  ⟨rfl, rfl⟩

/-- C8 (code bug): a statement consisting of a known mnemonic alone whose
first argument spec is required does not produce an `ArgumentMismatch`
compilation error: the raise site reads `line[1]`, which does not exist, so
the compiler crashes with an `IndexError` instead. A mismatching statement
that does have an operand token does get `ArgumentMismatch` carrying the
line and character index of that token. -/
theorem c8_bare_mnemonic_crash :
    compileSource "STO\n" = .error .indexError ∧
    compileSource "OUT \"x\"\n" = .error (.compilation 0 7 .argumentMismatch) :=
  ⟨rfl, rfl⟩



/-- C6: encoding a NUMBER operand with value `n` fails with the
integer-too-large error exactly when `n` strictly exceeds `2^64`; the
boundary value `2^64` itself is accepted without error. -/
theorem c6_integer_bound :
    (∀ ln idx n, (compile_int ln idx n =
        .error (.compilation ln idx .integerTooLarge)) ↔ 2 ^ 64 < n) ∧
    isOk (compile_int 0 0 (2 ^ 64)) = true := by
  constructor
  · intro ln idx n
    unfold compile_int
    split
    · rename_i h; exact iff_of_true rfl h
    · rename_i h; exact iff_of_false (fun hh => Except.noConfusion hh) h
  · simp [compile_int, isOk]

/-- C7: tokenization of an empty source, or of one whose last character is
not a newline, fails with a `LexingError` (the result carries no tokens). -/
theorem c7_lexing_precondition (code : String)
    (h : code.data = [] ∨ code.data.getLast? ≠ some '\n') :
    isLexErr (tokenize code) = true := by
  unfold tokenize
  rcases h with h | h
  · simp [h, isLexErr]
  · by_cases hl : code.data.length = 0
    · simp [hl, isLexErr]
    · simp only [if_neg hl, if_pos h]
      rfl

/-- Witness for C7 at the concrete input `"ADD 1 2"` with no trailing
newline. -/
theorem c7_lexing_precondition_witness :
    isLexErr (tokenize "ADD 1 2") = true :=
  c7_lexing_precondition "ADD 1 2" (Or.inr (by decide))

/-- C10: re-declaring a variable name is accepted without error: the
declaration statement consumes the current value of the shared counter as a
fresh id (and bumps the counter), the new binding shadows the old one in the
table, and — because every record encodes against the final live tables —
even a `STO x` that appears before the re-declaration of `x` encodes with the
newest id (the concrete program `.x` / `STO x` / `.x` emits id 2 for the STO
operand, not 1). -/
theorem c10_redeclaration :
    (∀ (s : CState) (t0 t1 : Token), t0.type = .VAR → t1.type = .IDT →
      resolveLine s [t0, t1] =
        .ok ⟨insertTbl s.vars t1.value s.counter, s.gotos, s.counter + 1,
             s.instrs ++ [⟨250, t0.line, t0.index, [⟨.NUM, 0, 0, .num s.counter⟩]⟩]⟩ ∧
      lookupTbl (insertTbl s.vars t1.value s.counter) t1.value = some s.counter) ∧
    compileSource ".x\nSTO x\n.x\n" =
      .ok ([250, 254] ++ specBE 1 8 ++ [65] ++ specBE 2 8 ++
           [250, 254] ++ specBE 2 8) := by
  refine ⟨fun s t0 t1 h0 h1 => ⟨?_, ?_⟩, rfl⟩
  · simp [resolveLine, h0, h1, VAR, Instruction.matchLine, matchArgs,
      Argument.matchTok, insertTbl]
  · simp [insertTbl, lookupTbl]

/-- Witness for C10: the general redeclaration step applied at the initial
state and the concrete tokens of `.x`. -/
theorem c10_redeclaration_witness :
    resolveLine initState [⟨.VAR, 0, 1, .none⟩, ⟨.IDT, 0, 2, .str "X"⟩] =
      .ok ⟨insertTbl initState.vars (TVal.str "X") initState.counter, initState.gotos,
           initState.counter + 1,
           initState.instrs ++ [⟨250, 0, 1, [⟨.NUM, 0, 0, .num initState.counter⟩]⟩]⟩ ∧
    lookupTbl (insertTbl initState.vars (TVal.str "X") initState.counter)
      (TVal.str "X") = some initState.counter :=
  (c10_redeclaration.1 initState ⟨.VAR, 0, 1, .none⟩ ⟨.IDT, 0, 2, .str "X"⟩ rfl rfl)



/-- Association-list lookup success implies membership. -/
theorem lookupStr_mem : ∀ (l : List (String × Instruction)) (key : String)
    (v : Instruction), lookupStr l key = some v → (key, v) ∈ l := by
  intro l
  induction l with
  | nil => intro key v h; cases h
  | cons p rest ih =>
    intro key v h
    obtain ⟨k, w⟩ := p
    unfold lookupStr at h
    split at h
    · injection h with h'
      subst h'
      rename_i hk
      subst hk
      exact List.Mem.head _
    · exact List.Mem.tail _ (ih key v h)

/-- No registered mnemonic has the label-declare byte 249 or the
variable-declare byte 250. -/
theorem instructionList_byte :
    ∀ p ∈ instructionList, p.2.byte ≠ 249 ∧ p.2.byte ≠ 250 := by decide

/-- Bytes of registry entries are never declaration bytes. -/
theorem instructions_byte (n : String) (ins : Instruction)
    (h : instructions n = some ins) : ins.byte ≠ 249 ∧ ins.byte ≠ 250 := by
  unfold instructions at h
  exact instructionList_byte _ (lookupStr_mem _ _ _ h)

/-- Mnemonic lookup through a token value never yields a declaration byte. -/
theorem lookupMnemonic_byte (v : TVal) (ins : Instruction)
    (h : lookupMnemonic v = some ins) : ins.byte ≠ 249 ∧ ins.byte ≠ 250 := by
  cases v with
  | str n =>
    unfold lookupMnemonic at h
    exact instructions_byte n ins h
  | none => simp [lookupMnemonic] at h
  | num m => simp [lookupMnemonic] at h

/-- `declTrace` distributes over append. -/
theorem declTrace_append (a b : List Compilable) :
    declTrace (a ++ b) = declTrace a ++ declTrace b := by
  simp [declTrace, List.filterMap_append]

/-- `declIds` distributes over append. -/
theorem declIds_append (a b : List Compilable) :
    declIds (a ++ b) = declIds a ++ declIds b := by
  simp [declIds, declTrace_append]

/-- A record whose byte is not a declaration byte contributes no decl id. -/
theorem declEntry_mnemonic (r : Compilable) (h9 : r.byte ≠ 249)
    (h10 : r.byte ≠ 250) : declEntry r = Option.none := by
  simp [declEntry, h9, h10]

/-- One resolver step extends the decl-id trace by exactly the counter values
it consumes. -/
theorem resolveLine_declIds (s : CState) (l : List Token) (s' : CState)
    (h : resolveLine s l = .ok s') :
    ∃ k, s'.counter = s.counter + k ∧
      declIds s'.instrs = declIds s.instrs ++ List.range' s.counter k := by
  cases l with
  | nil => exact absurd h (by simp [resolveLine])
  | cons t0 rest =>
    simp only [resolveLine] at h
    by_cases h0 : t0.type = .IDT
    · rw [if_pos h0] at h
      cases hm : lookupMnemonic t0.value with
      | none => rw [hm] at h; cases h
      | some ins =>
        rw [hm] at h
        dsimp only at h
        by_cases hmatch : ins.matchLine rest = true
        · rw [if_pos hmatch] at h
          split at h
          · split at h <;> cases h
          · cases h
            refine ⟨0, by simp, ?_⟩
            have hb := lookupMnemonic_byte _ _ hm
            have hd : declEntry ⟨ins.byte, t0.line, t0.index, rest⟩ = Option.none :=
              declEntry_mnemonic _ hb.1 hb.2
            simp [declIds_append, declIds, declTrace, hd]
        · rw [if_neg hmatch] at h
          split at h <;> cases h
    · rw [if_neg h0] at h
      by_cases h1 : t0.type = .VAR
      · rw [if_pos h1] at h
        by_cases hmatch : VAR.matchLine rest = true
        · rw [if_pos hmatch] at h
          split at h
          · cases h
            refine ⟨1, rfl, ?_⟩
            simp [declIds_append, declIds, declTrace, declEntry, VAR]
          · cases h
        · rw [if_neg hmatch] at h
          split at h <;> cases h
      · rw [if_neg h1] at h
        by_cases h2 : t0.type = .GOTO
        · rw [if_pos h2] at h
          by_cases hmatch : GOTO.matchLine rest = true
          · rw [if_pos hmatch] at h
            split at h
            · cases h
              refine ⟨1, rfl, ?_⟩
              simp [declIds_append, declIds, declTrace, declEntry, GOTO]
            · cases h
          · rw [if_neg hmatch] at h
            split at h <;> cases h
        · rw [if_neg h2] at h
          cases h

/-- The resolver pass extends the decl-id trace by exactly the consecutive
counter values it consumes. -/
theorem resolveLines_declIds : ∀ (ls : List (List Token)) (s s' : CState),
    resolveLines s ls = .ok s' →
    ∃ k, s'.counter = s.counter + k ∧
      declIds s'.instrs = declIds s.instrs ++ List.range' s.counter k := by
  intro ls
  induction ls with
  | nil =>
    intro s s' h
    cases h
    exact ⟨0, by omega, by simp⟩
  | cons l rest ih =>
    intro s s' h
    unfold resolveLines at h
    split at h
    · cases h
    · rename_i s1 hline
      obtain ⟨k1, hc1, hd1⟩ := resolveLine_declIds s l s1 hline
      obtain ⟨k2, hc2, hd2⟩ := ih s1 s' h
      refine ⟨k1 + k2, by omega, ?_⟩
      rw [hd2, hd1, List.append_assoc]
      congr 1
      rw [hc1]
      have := List.range'_append_1 s.counter k1 k2
      rw [this]
      congr 1
      omega



/-- C5: over a successful resolution pass from the initial state, the ids
assigned by declaration statements (variables and labels together) are
exactly `1, 2, 3, …` in source order — drawn from the single shared counter
starting at 1 — hence strictly increasing, pairwise distinct, and a label id
(`true` tag) never equals a variable id (`false` tag). -/
theorem c5_shared_counter (lines : List (List Token)) (s' : CState)
    (h : resolveLines initState lines = .ok s') :
    declIds s'.instrs = List.range' 1 (declIds s'.instrs).length ∧
    (declIds s'.instrs).Pairwise (· < ·) ∧
    ∀ p ∈ declTrace s'.instrs, ∀ q ∈ declTrace s'.instrs,
      p.1 ≠ q.1 → p.2 ≠ q.2 := by
  obtain ⟨k, hc, hd⟩ := resolveLines_declIds lines initState s' h
  have hd' : declIds s'.instrs = List.range' 1 k := by
    simpa [declIds, declTrace, initState] using hd
  have hlen : (declIds s'.instrs).length = k := by rw [hd']; simp
  have hpw : (declIds s'.instrs).Pairwise (· < ·) := by
    rw [hd']; exact List.pairwise_lt_range' 1 k
  refine ⟨by rw [hlen, hd'], hpw, ?_⟩
  have hnd : (List.map Prod.snd (declTrace s'.instrs)).Nodup :=
    hpw.imp Nat.ne_of_lt
  intro p hp q hq hne hsnd
  exact hne (congrArg Prod.fst (List.inj_on_of_nodup_map hnd hp hq hsnd))

/-- Witness for C5 at the resolved state of the two-declaration program
`.x` / `:l`. -/
theorem c5_shared_counter_witness :
    declIds [⟨250, 0, 1, [⟨.NUM, 0, 0, .num 1⟩]⟩,
             ⟨249, 1, 4, [⟨.NUM, 0, 0, .num 2⟩]⟩] =
      List.range' 1 (declIds [⟨250, 0, 1, [⟨.NUM, 0, 0, .num 1⟩]⟩,
             ⟨249, 1, 4, [⟨.NUM, 0, 0, .num 2⟩]⟩]).length ∧
    (declIds [⟨250, 0, 1, [⟨.NUM, 0, 0, .num 1⟩]⟩,
             ⟨249, 1, 4, [⟨.NUM, 0, 0, .num 2⟩]⟩]).Pairwise (· < ·) ∧
    ∀ p ∈ declTrace [⟨250, 0, 1, [⟨.NUM, 0, 0, .num 1⟩]⟩,
             ⟨249, 1, 4, [⟨.NUM, 0, 0, .num 2⟩]⟩],
      ∀ q ∈ declTrace [⟨250, 0, 1, [⟨.NUM, 0, 0, .num 1⟩]⟩,
             ⟨249, 1, 4, [⟨.NUM, 0, 0, .num 2⟩]⟩],
      p.1 ≠ q.1 → p.2 ≠ q.2 :=
  c5_shared_counter
    [[⟨.VAR, 0, 1, .none⟩, ⟨.IDT, 0, 2, .str "X"⟩],
     [⟨.GOTO, 1, 4, .none⟩, ⟨.IDT, 1, 5, .str "L"⟩]]
    ⟨[(.str "X", 1)], [(.str "L", 2)], 3,
     [⟨250, 0, 1, [⟨.NUM, 0, 0, .num 1⟩]⟩,
      ⟨249, 1, 4, [⟨.NUM, 0, 0, .num 2⟩]⟩]⟩
    rfl



set_option maxHeartbeats 1000000

/-- Each scanner step emits either a `NEWLINE` token carrying the
incremented line counter (and increments the state's counter), or a
non-`NEWLINE` token carrying the current counter (counter unchanged). -/
theorem pnext_line : ∀ (f : Nat) (s : PState) (t : Token) (s' : PState),
    pnext f s = .ok (t, s') →
    (t.type = .NEWLINE ∧ t.line = s.line + 1 ∧ s'.line = s.line + 1) ∨
    (t.type ≠ .NEWLINE ∧ t.line = s.line ∧ s'.line = s.line) := by
  intro f
  induction f with
  | zero => intro s t s' h; exact absurd h (by simp [pnext])
  | succ f ih =>
    intro s t s' h
    unfold pnext at h
    split at h
    · cases h; right; exact ⟨fun hc => TokType.noConfusion hc, rfl, rfl⟩
    · split at h
      · cases h
      · split at h
        · cases h; right; exact ⟨fun hc => TokType.noConfusion hc, rfl, rfl⟩
        · split at h
          · cases h; right; exact ⟨fun hc => TokType.noConfusion hc, rfl, rfl⟩
          · split at h
            · cases h; right; exact ⟨fun hc => TokType.noConfusion hc, rfl, rfl⟩
            · split at h
              · split at h
                · cases h
                · cases h; right; exact ⟨fun hc => TokType.noConfusion hc, rfl, rfl⟩
              · split at h
                · cases h; right; exact ⟨fun hc => TokType.noConfusion hc, rfl, rfl⟩
                · split at h
                  · cases h; right; exact ⟨fun hc => TokType.noConfusion hc, rfl, rfl⟩
                  · split at h
                    · dsimp only at h
                      split at h
                      · rw [if_neg (by decide)] at h
                        cases h; left; exact ⟨rfl, rfl, rfl⟩
                      · split at h
                        · rw [if_neg (by decide)] at h
                          cases h; left; exact ⟨rfl, rfl, rfl⟩
                        · rw [if_pos rfl] at h
                          have hrec := ih _ _ _ h
                          simpa using hrec
                    · cases h

set_option maxHeartbeats 200000

/-- The scanner loop produces a token stream whose line numbers are
consistent with the state's line counter. -/
theorem parseLoop_lines : ∀ (f : Nat) (s : PState) (toks : List Token),
    parseLoop f s = .ok toks → linesConsistent s.line toks = true := by
  intro f
  induction f with
  | zero => intro s toks h; exact absurd h (by simp [parseLoop])
  | succ f ih =>
    intro s toks h
    unfold parseLoop at h
    split at h
    · cases h
    · rename_i t s' hnext
      split at h
      · rename_i heof
        cases h
        rcases pnext_line _ _ _ _ hnext with ⟨hnl, _, _⟩ | ⟨hnl, hline, _⟩
        · rw [heof] at hnl; cases hnl
        · simp [linesConsistent, hnl, hline]
      · split at h
        · cases h
        · cases h
          rename_i rest hrest
          rcases pnext_line _ _ _ _ hnext with ⟨hnl, hline, hsl⟩ | ⟨hnl, hline, hsl⟩
          · have := ih _ _ hrest
            rw [hsl] at this
            simp [linesConsistent, hnl, hline, this]
          · have := ih _ _ hrest
            rw [hsl] at this
            simp [linesConsistent, hnl, hline, this]

/-- Filtering out non-`NEWLINE` tokens preserves line consistency. -/
theorem linesConsistent_filter : ∀ (k : Nat) (l : List Token),
    linesConsistent k l = true → linesConsistent k (l.filter keepToken) = true := by
  intro k l
  induction l generalizing k with
  | nil => intro h; simpa using h
  | cons t ts ih =>
    intro h
    unfold linesConsistent at h
    rw [List.filter_cons]
    by_cases hkeep : keepToken t = true
    · rw [if_pos hkeep]
      unfold linesConsistent
      split at h
      · rename_i hnl
        rw [if_pos hnl]
        simp only [Bool.and_eq_true] at h ⊢
        exact ⟨h.1, ih _ h.2⟩
      · rename_i hnl
        rw [if_neg hnl]
        simp only [Bool.and_eq_true] at h ⊢
        exact ⟨h.1, ih _ h.2⟩
    · rw [if_neg hkeep]
      have hnl : ¬t.type = .NEWLINE := by
        intro hc
        apply hkeep
        simp [keepToken, hc]
      rw [if_neg hnl] at h
      simp only [Bool.and_eq_true] at h
      exact ih _ h.2

/-- Quote-stripping changes neither a token's type nor its line. -/
theorem stripStr_type_line (t : Token) :
    (stripStr t).type = t.type ∧ (stripStr t).line = t.line := by
  unfold stripStr
  split
  · split <;> simp
  · simp

/-- Mapping quote-stripping over the stream preserves line consistency. -/
theorem linesConsistent_map_strip : ∀ (k : Nat) (l : List Token),
    linesConsistent k l = true →
    linesConsistent k (l.map stripStr) = true := by
  intro k l
  induction l generalizing k with
  | nil => intro h; simp [linesConsistent]
  | cons t ts ih =>
    intro h
    obtain ⟨hty, hln⟩ := stripStr_type_line t
    rw [List.map_cons]
    simp only [linesConsistent] at h ⊢
    split at h <;> rename_i hnl
    · rw [if_pos (by rw [hty]; exact hnl)]
      simp only [Bool.and_eq_true] at h ⊢
      exact ⟨by rw [hln]; simpa using h.1, ih _ (by simpa using h.2)⟩
    · rw [if_neg (by rw [hty]; exact hnl)]
      simp only [Bool.and_eq_true] at h ⊢
      exact ⟨by rw [hln]; simpa using h.1, ih _ (by simpa using h.2)⟩

/-- C9 counterexample: in `ADD 1 2\n`, the first token (which sits on the
first source line) carries line number 0, not 1 — the scanner's line counter
starts at 0, so token line numbers are 0-based, contradicting the claimed
1-based numbering. -/
theorem c9_counterexample :
    (match tokenize "ADD 1 2\n" with
     | .ok toks => toks.head?.map Token.line
     | .error _ => Option.none) = some 0 ∧ (0 : Nat) ≠ 1 :=
  ⟨rfl, by decide⟩

/-- C9 amended: token line numbers are 0-based, not 1-based. Precisely: in
any successfully tokenized stream, every non-`NEWLINE` token's `line` equals
the number of `NEWLINE` tokens before it (so every token of the first source
line carries 0, and — newlines inside string literals aside — a token of the
n-th source line carries n-1), while each `NEWLINE` token carries that count
plus one, the counter having been incremented before it is emitted. -/
theorem c9_zero_based_lines (code : String) (toks : List Token)
    (h : tokenize code = .ok toks) : linesConsistent 0 toks = true := by
  simp only [tokenize] at h
  split at h
  · cases h
  · split at h
    · cases h
    · split at h
      · cases h
      · cases h
        rename_i raw hraw
        apply linesConsistent_map_strip
        apply linesConsistent_filter
        have hl := parseLoop_lines _ _ _ hraw
        unfold linesConsistent
        rw [if_neg (by simp)]
        simp only [Bool.and_eq_true]
        exact ⟨by simp, hl⟩

/-- Witness for the amended C9 at the token stream of `ADD 1 2\n`. -/
theorem c9_zero_based_lines_witness :
    linesConsistent 0
      [⟨.IDT, 0, 3, .str "ADD"⟩, ⟨.NUM, 0, 5, .str "1"⟩,
       ⟨.NUM, 0, 7, .str "2"⟩] = true :=
  c9_zero_based_lines "ADD 1 2\n"
    [⟨.IDT, 0, 3, .str "ADD"⟩, ⟨.NUM, 0, 5, .str "1"⟩,
     ⟨.NUM, 0, 7, .str "2"⟩] rfl



/-- With fuel at least the value, the fuelled hex scan computes the
little-endian base-16 digits. -/
theorem hexRevF_eq_digits : ∀ (n f : Nat), n ≤ f → hexRevF f n = Nat.digits 16 n := by
  intro n
  induction n using Nat.strong_induction_on with
  | _ n ih =>
    intro f hf
    cases f with
    | zero =>
      have h0 : n = 0 := Nat.le_zero.mp hf
      subst h0
      simp [hexRevF]
    | succ g =>
      unfold hexRevF
      by_cases h0 : n = 0
      · subst h0; simp
      · rw [if_neg h0]
        have hlt : n / 16 < n := Nat.div_lt_self (Nat.pos_of_ne_zero h0) (by norm_num)
        rw [ih (n / 16) hlt g (by omega)]
        rw [Nat.digits_def' (by norm_num : 1 < 16) (Nat.pos_of_ne_zero h0)]

/-- The `i`-th little-endian base-16 digit of `n` is `n / 16^i % 16`. -/
theorem digits16_getD : ∀ (n i : Nat), (Nat.digits 16 n).getD i 0 = n / 16 ^ i % 16 := by
  intro n
  induction n using Nat.strong_induction_on with
  | _ n ih =>
    intro i
    by_cases h0 : n = 0
    · subst h0; simp
    · rw [Nat.digits_def' (by norm_num : 1 < 16) (Nat.pos_of_ne_zero h0)]
      cases i with
      | zero => simp
      | succ j =>
        rw [List.getD_cons_succ,
          ih (n / 16) (Nat.div_lt_self (Nat.pos_of_ne_zero h0) (by norm_num)) j,
          Nat.div_div_eq_div_mul, pow_succ, Nat.mul_comm]

/-- `n < 16^L` bounds the number of base-16 digits of `n` by `L`. -/
theorem digits16_len_le : ∀ (L n : Nat), n < 16 ^ L → (Nat.digits 16 n).length ≤ L := by
  intro L
  induction L with
  | zero =>
    intro n h
    have h0 : n = 0 := by simpa using Nat.lt_one_iff.mp (by simpa using h)
    subst h0; simp
  | succ L ih =>
    intro n h
    by_cases h0 : n = 0
    · subst h0; simp
    · rw [Nat.digits_def' (by norm_num : 1 < 16) (Nat.pos_of_ne_zero h0)]
      have hdiv : n / 16 < 16 ^ L := by
        rw [Nat.div_lt_iff_lt_mul (by norm_num : (0:Nat) < 16)]
        calc n < 16 ^ (L + 1) := h
        _ = 16 ^ L * 16 := by rw [pow_succ]
      simpa using Nat.succ_le_succ (ih _ hdiv)

/-- `getD` of an all-zero list is zero. -/
theorem getD_replicate_zero : ∀ (m j : Nat),
    (List.replicate m (0 : Nat)).getD j 0 = 0 := by
  intro m
  induction m with
  | zero => intro j; simp
  | succ m ih =>
    intro j
    cases j with
    | zero => simp [List.replicate_succ]
    | succ i => simp [List.replicate_succ, ih]

/-- `getD` through a reversal flips the index. -/
theorem rev_getD (l : List Nat) (j : Nat) (h : j < l.length) :
    l.reverse.getD j 0 = l.getD (l.length - 1 - j) 0 := by
  have h' : j < l.reverse.length := by simpa using h
  have h2 : l.length - 1 - j < l.length := by omega
  rw [List.getD_eq_getElem _ _ h', List.getD_eq_getElem _ _ h2]
  exact List.getElem_reverse h'

/-- The `j`-th character of the zero-filled hex string of `n` (width `L`,
`n < 16^L`) is the base-16 digit of weight `16^(L-1-j)`. -/
theorem hexPad_getD (n L j : Nat) (hL : 1 ≤ L) (hn : n < 16 ^ L) (hj : j < L) :
    (List.replicate (L - (hexDigits n).length) 0 ++ hexDigits n).getD j 0 =
      n / 16 ^ (L - 1 - j) % 16 := by
  by_cases h0 : n = 0
  · subst h0
    have hd : hexDigits 0 = [0] := rfl
    rw [hd]
    simp only [List.length_singleton]
    have hrep : List.replicate (L - 1) (0 : Nat) ++ [0] = List.replicate L 0 := by
      have h := (List.replicate_succ' (L - 1) (0 : Nat)).symm
      rw [h]
      congr 1
      omega
    rw [hrep, getD_replicate_zero]
    simp
  · have hdig : hexDigits n = (Nat.digits 16 n).reverse := by
      unfold hexDigits
      rw [if_neg h0, hexRevF_eq_digits n n le_rfl]
    rw [hdig]
    simp only [List.length_reverse]
    have hlen : (Nat.digits 16 n).length ≤ L := digits16_len_le L n hn
    by_cases hcase : j < L - (Nat.digits 16 n).length
    · rw [List.getD_append _ _ _ _ (by simp; omega)]
      rw [getD_replicate_zero]
      have hge : (Nat.digits 16 n).length ≤ L - 1 - j := by omega
      have hsmall : n < 16 ^ (L - 1 - j) := by
        calc n < 16 ^ (Nat.digits 16 n).length :=
                Nat.lt_base_pow_length_digits (by norm_num)
        _ ≤ 16 ^ (L - 1 - j) := Nat.pow_le_pow_right (by norm_num) hge
      rw [Nat.div_eq_of_lt hsmall]
    · rw [List.getD_append_right _ _ _ _ (by simp; omega)]
      simp only [List.length_replicate]
      rw [rev_getD (Nat.digits 16 n) _ (by omega)]
      rw [digits16_getD]
      have hexp : (Nat.digits 16 n).length - 1 - (j - (L - (Nat.digits 16 n).length)) =
          L - 1 - j := by omega
      rw [hexp]

/-- `make_bytes` computes the big-endian base-256 byte string whenever the
value fits in the requested width. -/
theorem make_bytes_eq_specBE (n w : Nat) (h : n < 256 ^ w) :
    make_bytes n w = specBE n w := by
  unfold make_bytes specBE
  apply List.map_congr_left
  intro i hi
  rw [List.mem_range] at hi
  have hpow : (16 : Nat) ^ (2 * w) = 256 ^ w := by
    rw [pow_mul]; norm_num
  have hn : n < 16 ^ (2 * w) := by rw [hpow]; exact h
  have hL : 1 ≤ 2 * w := by omega
  rw [hexPad_getD n (2 * w) (2 * i) hL hn (by omega),
    hexPad_getD n (2 * w) (2 * i + 1) hL hn (by omega)]
  have h1 : 2 * w - 1 - 2 * i = (2 * w - 2 - 2 * i) + 1 := by omega
  have h2 : 2 * w - 2 - 2 * i = 2 * (w - 1 - i) := by omega
  have h3 : 2 * w - 1 - (2 * i + 1) = 2 * w - 2 - 2 * i := by omega
  rw [h1, h3]
  have h4 : (16 : Nat) ^ (2 * w - 2 - 2 * i) = 256 ^ (w - 1 - i) := by
    rw [h2, pow_mul]; norm_num
  rw [← h4]
  have h5 : n / 16 ^ ((2 * w - 2 - 2 * i) + 1) = n / 16 ^ (2 * w - 2 - 2 * i) / 16 := by
    rw [pow_succ, ← Nat.div_div_eq_div_mul]
  rw [h5]
  omega

/-- C3: a STRING operand all of whose characters fit in a byte and whose
length fits the 4-byte count is encoded as the string tag `0b11111101`, the
character count as a 4-byte big-endian unsigned integer, then one byte per
character; in particular `OUTS "hi"` compiles to
`[130, 253, 0, 0, 0, 2, 104, 105]`. -/
theorem c3_string_encoding (ln idx : Nat) (s : String)
    (hc : ∀ c ∈ s.data, c.toNat ≤ 255) (hl : s.data.length < 2 ^ 32) :
    compile_string ln idx s =
      .ok (253 :: (specBE s.data.length 4 ++ s.data.map Char.toNat)) ∧
    compileSource "OUTS \"hi\"\n" =
      .ok ([130, 253] ++ specBE 2 4 ++ [104, 105]) := by
  refine ⟨?_, rfl⟩
  unfold compile_string
  have hfind : s.data.find? (fun c => 255 < c.toNat) = Option.none := by
    rw [List.find?_eq_none]
    intro c hcin
    simpa using Nat.not_lt.mpr (hc c hcin)
  rw [hfind]
  rw [if_neg (Nat.not_lt.mpr hl.le)]
  have hfit : s.data.length < 256 ^ 4 := by
    have h32 : (256 : Nat) ^ 4 = 2 ^ 32 := by norm_num
    rw [h32]
    exact hl
  rw [make_bytes_eq_specBE _ 4 hfit]

/-- Witness for C3 at the string `"hi"`. -/
theorem c3_string_encoding_witness :
    compile_string 0 0 "hi" =
      .ok (253 :: (specBE ("hi").data.length 4 ++ ("hi").data.map Char.toNat)) ∧
    compileSource "OUTS \"hi\"\n" =
      .ok ([130, 253] ++ specBE 2 4 ++ [104, 105]) :=
  c3_string_encoding 0 0 "hi" (by decide) (by decide)


end Assemblyish
